import Mathlib

/-!
Verification of the layout-parsing / role-validation / table-construction
pipeline of `boards/generate.py` (repository secfurry/rpsp).

The Python source is shallowly embedded below.  Pure helper functions of the
script (`_strip_comment`, `_check_ascii`, `_name`, `_tag`, `_pins`, the `Pin`
constructor and `parse`) become Lean functions over `String` / `List Char`,
errors raised as Python `ValueError` become `Except String`, and the Rust
resolver functions emitted by `_make_pwm` / `_make_i2c` / `_make_spi` are
embedded by modelling the match-arm lists those emitters produce, in emission
order, together with the fixed control flow of the surrounding code templates
(`CODE_PWM`, `CODE_I2C`, `CODE_SPI`).

Notes on the embedding of Python primitives:
* `str.strip()` removes leading and trailing whitespace (space, tab, newline,
  carriage return, vertical tab, form feed) - `pyStrip` below.
* `str.upper()` / `str.lower()` act characterwise; on the ASCII vocabulary
  used by the script they coincide with `Char.toUpper` / `Char.toLower`.
* `int(s, 10)` strips surrounding whitespace, accepts an optional sign and a
  nonempty digit string in which single underscores may separate digits -
  `pyInt` below.  In particular it accepts negative values.
* `str.find(c)` yields the first index or -1; the script only tests `i <= 0`,
  modelled via `Option Nat` from `List.findIdx?`.
* `int(x / 2)` (true division then truncation) equals truncating integer
  division for `|x| < 2^53`, where the double is exact - `Int.tdiv` below.
* `x & 0x7` on a Python integer (infinite two's complement) equals the
  Euclidean remainder `x mod 8` - `Int.emod` below.
-/

namespace RPSP

/-- `_VALID_I2C` from generate.py. -/
def VALID_I2C : List String := ["I2C0_SDA", "I2C0_SCL", "I2C1_SDA", "I2C1_SCL"]

/-- `_VALID_SPI` from generate.py. -/
def VALID_SPI : List String :=
  ["SPI0_RX", "SPI0_CS", "SPI0_SCK", "SPI0_TX", "SPI1_RX", "SPI1_CS", "SPI1_SCK", "SPI1_TX"]

/-- `_VALID_UART` from generate.py. -/
def VALID_UART : List String :=
  ["UART0_TX", "UART0_RX", "UART0_CTS", "UART0_RTS",
   "UART1_TX", "UART1_RX", "UART1_CTS", "UART1_RTS"]

/-- The `Pin` record built by `Pin.__init__`: `self.id`, `self.doc`
(`None` when the doc list was empty), `self.roles` (upper-cased tokens). -/
structure Pin where
  id : Int
  doc : Option (List String)
  roles : List String
deriving Repr, DecidableEq

/-- Characterwise embedding of Python `str.upper()` (ASCII). -/
def strUpper (s : String) : String := String.mk (s.toList.map Char.toUpper)

/-- Characterwise embedding of Python `str.lower()` (ASCII). -/
def strLower (s : String) : String := String.mk (s.toList.map Char.toLower)

/-- Whitespace characters removed by Python `str.strip()`. -/
def pySpaceChar (c : Char) : Bool :=
  c = ' ' || c = '\t' || c = '\n' || c = '\x0d' || c = '\x0b' || c = '\x0c'

/-- Python `str.strip()` on a character list. -/
def pyStrip (cs : List Char) : List Char :=
  ((cs.dropWhile pySpaceChar).reverse.dropWhile pySpaceChar).reverse

/-- Python `str.strip()` on a `String`. -/
def strStrip (s : String) : String := String.mk (pyStrip s.toList)

/-- Digit-run evaluator for `int(s, 10)`: after the first digit, a single
underscore may separate two digits; anything else is invalid. -/
def pyDigitsAux : Nat → List Char → Option Nat
  | acc, [] => some acc
  | acc, '_' :: c :: rest =>
    if c.isDigit then pyDigitsAux (acc * 10 + (c.toNat - 48)) rest else none
  | acc, c :: rest =>
    if c.isDigit then pyDigitsAux (acc * 10 + (c.toNat - 48)) rest else none

/-- Nonempty digit string accepted by `int(s, 10)` (no leading underscore). -/
def pyDigits : List Char → Option Nat
  | [] => none
  | '_' :: _ => none
  | c :: rest => if c.isDigit then pyDigitsAux (c.toNat - 48) rest else none

/-- `int(s, 10)` on a stripped character list: optional sign then digits. -/
def pyIntChars : List Char → Option Int
  | '+' :: rest => (pyDigits rest).map (fun n => (n : Int))
  | '-' :: rest => (pyDigits rest).map (fun n => -(n : Int))
  | cs => (pyDigits cs).map (fun n => (n : Int))

/-- Python `int(s, 10)`: `none` models the `ValueError` branch. -/
def pyInt (s : String) : Option Int := pyIntChars (pyStrip s.toList)

/-- `v.startswith("//")`: the line's first two characters are slashes. -/
def isCommentLine (v : String) : Bool :=
  match v.toList with
  | c1 :: c2 :: _ => c1 = '/' && c2 = '/'
  | _ => false

/-- `v.startswith("#")`: the line's first character is a hash. -/
def isHashLine (v : String) : Bool :=
  match v.toList with
  | c :: _ => c = '#'
  | _ => false

/-- Loop body of `_strip_comment`: the first index whose character is neither
`/` (0x2F) nor space (0x20) starts the returned suffix; `none` when every
character is a slash or a space (the function then returns `v` itself). -/
def stripCommentList : List Char → Option (List Char)
  | [] => none
  | c :: rest =>
    if c.toNat = 0x2F ∨ c.toNat = 0x20 then stripCommentList rest else some (c :: rest)

/-- `_strip_comment` from generate.py. -/
def stripComment (v : String) : String :=
  match stripCommentList v.toList with
  | some l => String.mk l
  | none => v

/-- Per-character acceptance of `_check_ascii`, in source order. -/
def asciiCharOk (strict : Bool) (c : Char) : Bool :=
  let n := c.toNat
  if 0x61 ≤ n ∧ n ≤ 0x7A then true
  else if 0x41 ≤ n ∧ n ≤ 0x5A then true
  else if 0x30 ≤ n ∧ n ≤ 0x39 then true
  else if n = 0x5F ∨ n = 0x2D then true
  else if strict then false
  else if n = 0x20 ∨ n = 0x5B ∨ n = 0x5D ∨ n = 0x7C then true
  else if n = 0x7B ∨ n = 0x7D ∨ n = 0x28 ∨ n = 0x29 ∨ n = 0x40 then true
  else false

/-- First-character rejection of strict identifiers in `_check_ascii`:
a digit, underscore, or hyphen may not start a strict value. -/
def strictHeadBad : List Char → Bool
  | [] => false
  | c :: _ => (0x30 ≤ c.toNat && c.toNat ≤ 0x39) || c.toNat == 0x5F || c.toNat == 0x2D

/-- `_check_ascii` from generate.py. -/
def checkAscii (v : String) (strict : Bool) : Bool :=
  if v.toList.length ≤ 1 then false
  else if strict && strictHeadBad v.toList then false
  else v.toList.all (asciiCharOk strict)

/-- The `ValueError` message for an unrecognized role token. -/
def errInvalidRole (pid : Int) (v : String) : String :=
  s!"pin \"{pid}\" has an invalid role \"{v}\""

/-- The `ValueError` message for more than one role of one class on a pin. -/
def errSingleRole (pid : Int) (cls : String) : String :=
  s!"pin \"{pid}\" can only have a single {cls} role"

/-- The `ValueError` message for a pin line without a usable colon. -/
def errInvalidLine (line : String) : String :=
  s!"invalid pin line entry \"{line}\""

/-- The `ValueError` message for an unparsable pin-id prefix. -/
def errInvalidId (pfx : String) : String :=
  s!"invalid pin ID \"{pfx}\""

/-- The `ValueError` message for a repeated pin id. -/
def errDupId (n : Int) : String :=
  s!"duplicate pin ID \"{n}\""

/-- Role-token loop of `Pin.__init__`: skips empty tokens, upper-cases,
appends to the roles list, counts per class, raises on unknown tokens.
Returns the roles list and the three per-class counters. -/
def mkPinRoles (pid : Int) (acc : List String) (i s u : Nat) :
    List String → Except String (List String × Nat × Nat × Nat)
  | [] => .ok (acc, i, s, u)
  | r :: rest =>
    if r.toList.length = 0 then mkPinRoles pid acc i s u rest
    else if strUpper r ∈ VALID_I2C then mkPinRoles pid (acc ++ [strUpper r]) (i + 1) s u rest
    else if strUpper r ∈ VALID_SPI then mkPinRoles pid (acc ++ [strUpper r]) i (s + 1) u rest
    else if strUpper r ∈ VALID_UART then mkPinRoles pid (acc ++ [strUpper r]) i s (u + 1) rest
    else .error (errInvalidRole pid (strUpper r))

/-- `Pin.__init__` from generate.py.  `roles = none` models the non-list
argument (`None`, from a `-` entry): the constructor then returns early with
an empty role list.  After the token loop, each per-class counter above one
raises the corresponding single-role error. -/
def mkPin (pid : Int) (doc : List String) (roles : Option (List String)) : Except String Pin :=
  let d : Option (List String) := if 0 < doc.length then some doc else none
  match roles with
  | none => .ok ⟨pid, d, []⟩
  | some rs =>
    match mkPinRoles pid [] 0 0 0 rs with
    | .error e => .error e
    | .ok (out, i, s, u) =>
      if 1 < i then .error (errSingleRole pid "I2C")
      else if 1 < s then .error (errSingleRole pid "SPI")
      else if 1 < u then .error (errSingleRole pid "UART")
      else .ok ⟨pid, d, out⟩

/-- `v[x].find(":")` of the pin-entry loop. -/
def lineColon (v : String) : Option Nat := v.toList.findIdx? (fun c => c = ':')

/-- The role-token argument `e` built from the rest of a pin line: `-` gives
`None`, a rest containing a comma splits on commas, otherwise on spaces, each
piece stripped. -/
def pinRoleArg (r : String) : Option (List String) :=
  if r = "-" then none
  else if r.toList.contains ',' then
    some ((r.splitOn ",").map strStrip)
  else
    some ((r.splitOn " ").map strStrip)

/-- Loop of `_pins` from generate.py: `c` is the pending comment buffer,
`g` the set (here: list) of already-seen pin ids, `p` the accumulated pins. -/
def pinsLoop : List String → List String → List Int → List Pin → Except String (List Pin)
  | [], _, _, p => .ok p
  | line :: rest, c, g, p =>
    if line.toList.length = 0 then pinsLoop rest c g p
    else if isCommentLine line then
      pinsLoop rest (c ++ [strStrip (stripComment line)]) g p
    else
      match lineColon line with
      | none => .error (errInvalidLine line)
      | some i =>
        if i = 0 then .error (errInvalidLine line)
        else
          let pfx := String.mk (line.toList.take i)
          match pyInt pfx with
          | none => .error (errInvalidId pfx)
          | some n =>
            if n ∈ g then .error (errDupId n)
            else if i + 1 = line.toList.length then pinsLoop rest [] (g ++ [n]) p
            else
              let r := strStrip (String.mk (line.toList.drop (i + 1)))
              match mkPin n c (pinRoleArg r) with
              | .error msg => .error msg
              | .ok pin => pinsLoop rest [] (g ++ [n]) (p ++ [pin])

/-- `_pins(v, start)` from generate.py, with the lines from `start` on. -/
def pinsOf (lines : List String) : Except String (List Pin) := pinsLoop lines [] [] []

/-- `_name` from generate.py, returning the name and the remaining lines. -/
def nameFind : List String → Except String (String × List String)
  | [] => .error "name entry was not found"
  | l :: rest =>
    if l.toList.length = 0 then nameFind rest
    else if isCommentLine l then nameFind rest
    else if isHashLine l || l.toList.contains ':' then .error "name entry was not found"
    else .ok (l, rest)

/-- `_tag` from generate.py, returning the tag value and the remaining
lines.  A `#` line is only accepted when the whole line has at least four
characters; a line containing a colon aborts the search. -/
def tagFind : List String → Except String (String × List String)
  | [] => .error "#<tag> entry was not found"
  | l :: rest =>
    if l.toList.length = 0 then tagFind rest
    else if isCommentLine l then tagFind rest
    else if isHashLine l ∧ 4 ≤ l.toList.length then .ok (String.mk (l.toList.drop 1), rest)
    else if l.toList.contains ':' then .error "#<tag> entry was not found"
    else tagFind rest

/-- Stable-enough insertion used to model `p.sort(key=lambda x: x.id)`
(the parsed pins have pairwise distinct ids, so ties never occur). -/
def insertPin (x : Pin) : List Pin → List Pin
  | [] => [x]
  | y :: ys => if x.id < y.id then x :: y :: ys else y :: insertPin x ys

/-- Ascending-by-id sort of the parsed pin list. -/
def sortPins (l : List Pin) : List Pin := l.foldr insertPin []

/-- `parse` from generate.py, on the list of lines of the file (the file
content split on newlines); each line is stripped first, the whole file must
have more than four lines, and the error messages drop the file path that the
script interpolates. -/
def parseLines (d0 : List String) : Except String (String × String × List Pin) :=
  let d := d0.map strStrip
  if d.length ≤ 4 then .error "file content is invalid"
  else
    match nameFind d with
    | .error e => .error e
    | .ok (n, r1) =>
      if checkAscii n false = false then .error (s!"name value \"{n}\" is not valid")
      else
        match tagFind r1 with
        | .error e => .error e
        | .ok (t, r2) =>
          if checkAscii t true = false then .error (s!"tag value \"{t}\" is not valid")
          else
            match pinsLoop r2 [] [] [] with
            | .error e => .error e
            | .ok p =>
              if p.length = 0 then .error "no pin entries found"
              else .ok (n, strLower t, sortPins p)

/-! ## The emitted resolver functions

`_make_pwm`, `_make_i2c` and `_make_spi` write one Rust match arm per pin
and role, in pin order; the surrounding templates supply the control flow.
The arm lists and that control flow are modelled here directly. -/

/-- The channel and sub-channel (`true` = A) computed for a pin id by
`_make_pwm`: `int(id / 2) & 0x7` and `id % 2 == 0`. -/
def pwmEntry (n : Int) : Int × Bool := ((Int.tdiv n 2).emod 8, n.emod 2 == 0)

/-- The match arms of the emitted `pins_pwm`: one per pin, in order. -/
def pwmArms (l : List Pin) : List (Int × Int × Bool) :=
  l.map (fun p => (p.id, pwmEntry p.id))

/-- The emitted `pins_pwm` function: the Rust match selects the first arm
whose pin pattern equals the argument. -/
def pins_pwm (l : List Pin) (x : Int) : Option (Int × Bool) :=
  ((pwmArms l).find? (fun a => a.1 == x)).map (fun a => a.2)

/-- SDA match arms contributed by one pin in `_make_i2c`: the `I2C0_SDA`
arm is written before the `I2C1_SDA` arm. -/
def i2cSdaArmsOf (p : Pin) : List (Int × Nat) :=
  (if "I2C0_SDA" ∈ p.roles then [(p.id, 0)] else [])
    ++ (if "I2C1_SDA" ∈ p.roles then [(p.id, 1)] else [])

/-- All SDA match arms of the emitted `pins_i2c`, in pin order. -/
def i2cSdaArms (l : List Pin) : List (Int × Nat) := l.flatMap i2cSdaArmsOf

/-- SCL match arms contributed by one pin in `_make_i2c`. -/
def i2cSclArmsOf (p : Pin) : List (Nat × Int) :=
  (if "I2C0_SCL" ∈ p.roles then [(0, p.id)] else [])
    ++ (if "I2C1_SCL" ∈ p.roles then [(1, p.id)] else [])

/-- All SCL match arms of the emitted `pins_i2c`, in pin order. -/
def i2cSclArms (l : List Pin) : List (Nat × Int) := l.flatMap i2cSclArmsOf

/-- The emitted `pins_i2c(sda, scl)` of `CODE_I2C`: resolve the bus from the
SDA arms (default arm: `None`), then require `(bus, scl)` to match an SCL
arm (default arm: `None`), else return the bus. -/
def pins_i2c (l : List Pin) (sda scl : Int) : Option Nat :=
  match (i2cSdaArms l).find? (fun a => a.1 == sda) with
  | none => none
  | some a => if (a.2, scl) ∈ i2cSclArms l then some a.2 else none

/-- TX match arms contributed by one pin in `_make_spi`. -/
def spiTxArmsOf (p : Pin) : List (Int × Nat) :=
  (if "SPI0_TX" ∈ p.roles then [(p.id, 0)] else [])
    ++ (if "SPI1_TX" ∈ p.roles then [(p.id, 1)] else [])

/-- All TX match arms of the emitted `pins_spi`, in pin order. -/
def spiTxArms (l : List Pin) : List (Int × Nat) := l.flatMap spiTxArmsOf

/-- SCK match arms contributed by one pin in `_make_spi`. -/
def spiSckArmsOf (p : Pin) : List (Nat × Int) :=
  (if "SPI0_SCK" ∈ p.roles then [(0, p.id)] else [])
    ++ (if "SPI1_SCK" ∈ p.roles then [(1, p.id)] else [])

/-- All SCK match arms of the emitted `pins_spi`, in pin order. -/
def spiSckArms (l : List Pin) : List (Nat × Int) := l.flatMap spiSckArmsOf

/-- RX match arms contributed by one pin in `_make_spi` (the Rust pattern
matches `Some(pin)`, hence the `Option` in the key). -/
def spiRxArmsOf (p : Pin) : List (Nat × Option Int) :=
  (if "SPI0_RX" ∈ p.roles then [(0, some p.id)] else [])
    ++ (if "SPI1_RX" ∈ p.roles then [(1, some p.id)] else [])

/-- All RX match arms of the emitted `pins_spi`, in pin order. -/
def spiRxArms (l : List Pin) : List (Nat × Option Int) := l.flatMap spiRxArmsOf

/-- CS match arms contributed by one pin in `_make_spi`. -/
def spiCsArmsOf (p : Pin) : List (Nat × Option Int) :=
  (if "SPI0_CS" ∈ p.roles then [(0, some p.id)] else [])
    ++ (if "SPI1_CS" ∈ p.roles then [(1, some p.id)] else [])

/-- All CS match arms of the emitted `pins_spi`, in pin order. -/
def spiCsArms (l : List Pin) : List (Nat × Option Int) := l.flatMap spiCsArmsOf

/-- An optional-pin match of `CODE_SPI`: the arm `(_, None) => ()` accepts an
absent pin, a present pin must match one of the generated `Some` arms, and
the default arm returns `None`. -/
def spiOptOk (arms : List (Nat × Option Int)) (b : Nat) : Option Int → Bool
  | none => true
  | some r => decide ((b, some r) ∈ arms)

/-- The emitted `pins_spi(tx, sck, rx, cs)` of `CODE_SPI`: resolve the bus
from `tx`, require `sck` to match, return early when both optionals are
absent, otherwise check each present optional against its arm list. -/
def pins_spi (l : List Pin) (tx sck : Int) (rx cs : Option Int) : Option Nat :=
  match (spiTxArms l).find? (fun a => a.1 == tx) with
  | none => none
  | some a =>
    if (a.2, sck) ∈ spiSckArms l then
      if rx.isNone && cs.isNone then some a.2
      else if spiOptOk (spiRxArms l) a.2 rx && spiOptOk (spiCsArms l) a.2 cs then some a.2
      else none
    else none

/-! ## Specification-side helpers used in theorem statements -/

/-- The ids of a pin list. -/
def idsOf (l : List Pin) : List Int := l.map Pin.id

/-- The I2C bus a pin's SDA role maps it to, in source arm order. -/
def sdaBusOf (p : Pin) : Option Nat :=
  if "I2C0_SDA" ∈ p.roles then some 0
  else if "I2C1_SDA" ∈ p.roles then some 1
  else none

/-- The SCL role name of an I2C bus. -/
def sclRoleOf (b : Nat) : String := if b = 0 then "I2C0_SCL" else "I2C1_SCL"

/-- The SPI bus a pin's TX role maps it to, in source arm order. -/
def spiTxBusOf (p : Pin) : Option Nat :=
  if "SPI0_TX" ∈ p.roles then some 0
  else if "SPI1_TX" ∈ p.roles then some 1
  else none

/-- The SCK role name of an SPI bus. -/
def spiSckRoleOf (b : Nat) : String := if b = 0 then "SPI0_SCK" else "SPI1_SCK"

/-- The RX role name of an SPI bus. -/
def spiRxRoleOf (b : Nat) : String := if b = 0 then "SPI0_RX" else "SPI1_RX"

/-- The CS role name of an SPI bus. -/
def spiCsRoleOf (b : Nat) : String := if b = 0 then "SPI0_CS" else "SPI1_CS"

/-- An optional argument pin either is absent or holds the given role. -/
def optHoldsRole (o : Option Pin) (role : String) : Bool :=
  match o with
  | none => true
  | some r => decide (role ∈ r.roles)

/-- Number of roles of a role list that belong to a class vocabulary. -/
def classCount (cls : List String) (roles : List String) : Nat :=
  (roles.filter (fun r => r ∈ cls)).length

/-- Number of raw tokens of a token list that normalize into a class
vocabulary (empty tokens never do). -/
def classTokCount (cls : List String) (ts : List String) : Nat :=
  (ts.filter (fun t => strUpper t ∈ cls)).length

/-- The pin id announced by a line of `_pins`: `none` for blank lines,
comment lines, and lines without a positive-index colon or with an
unparsable prefix. -/
def entryId (line : String) : Option Int :=
  if line.toList.length = 0 then none
  else if isCommentLine line then none
  else
    match lineColon line with
    | none => none
    | some i => if i = 0 then none else pyInt (String.mk (line.toList.take i))

deriving instance DecidableEq for Except

/-! ## Shared helper lemmas -/

lemma find_append_none {α : Type} (l1 l2 : List α) (p : α → Bool) (h : l1.find? p = none) :
    (l1 ++ l2).find? p = l2.find? p := by
  simp [List.find?_append, h]

lemma find_append_some {α : Type} (l1 l2 : List α) (p : α → Bool) (a : α)
    (h : l1.find? p = some a) : (l1 ++ l2).find? p = some a := by
  simp [List.find?_append, h]

lemma pin_id_inj {l : List Pin} (hnd : (idsOf l).Nodup) {p q : Pin}
    (hp : p ∈ l) (hq : q ∈ l) (h : p.id = q.id) : p = q :=
  List.inj_on_of_nodup_map (by simpa [idsOf] using hnd) hp hq h

lemma idsOf_cons (h : Pin) (t : List Pin) : idsOf (h :: t) = h.id :: idsOf t := rfl

lemma flatMap_find_of_key {α : Type} (f : Pin → List α) (key : α → Int)
    (hf : ∀ q : Pin, ∀ a ∈ f q, key a = q.id) :
    ∀ (l : List Pin), (idsOf l).Nodup → ∀ p ∈ l,
      (l.flatMap f).find? (fun a => key a == p.id) = (f p).find? (fun a => key a == p.id) := by
  intro l
  induction l with
  | nil => intro _ p hp; cases hp
  | cons h t ih =>
    intro hnd p hp
    rw [idsOf_cons, List.nodup_cons] at hnd
    rw [List.flatMap_cons]
    rcases List.mem_cons.mp hp with rfl | hpt
    · cases hfp : (f p).find? (fun a => key a == p.id) with
      | some a => exact find_append_some _ _ _ _ hfp
      | none =>
        rw [find_append_none _ _ _ hfp]
        apply List.find?_eq_none.mpr
        intro a ha
        obtain ⟨q, hq, haq⟩ := List.mem_flatMap.mp ha
        have hkey := hf q a haq
        have hmem : q.id ∈ idsOf t := List.mem_map_of_mem _ hq
        have hne : key a ≠ p.id := by
          rw [hkey]; intro e; exact hnd.1 (e ▸ hmem)
        simpa using hne
    · have h1 : (f h).find? (fun a => key a == p.id) = none := by
        apply List.find?_eq_none.mpr
        intro a ha
        have hkey := hf h a ha
        have hmem : p.id ∈ idsOf t := List.mem_map_of_mem _ hpt
        have hne : key a ≠ p.id := by
          rw [hkey]; intro e; exact hnd.1 (e ▸ hmem)
        simpa using hne
      rw [find_append_none _ _ _ h1]
      exact ih hnd.2 p hpt

lemma flatMap_mem_of_key {α : Type} (f : Pin → List α) (key : α → Int)
    (hf : ∀ q : Pin, ∀ a ∈ f q, key a = q.id)
    (l : List Pin) (hnd : (idsOf l).Nodup) (q : Pin) (hq : q ∈ l) (a : α)
    (ha : key a = q.id) : (a ∈ l.flatMap f) ↔ a ∈ f q := by
  constructor
  · intro h
    obtain ⟨r, hr, har⟩ := List.mem_flatMap.mp h
    have hid : r.id = q.id := by rw [← hf r a har, ha]
    exact pin_id_inj hnd hr hq hid ▸ har
  · intro h
    exact List.mem_flatMap.mpr ⟨q, hq, h⟩

/-! ## PWM resolver lemmas -/

lemma pins_pwm_mem (l : List Pin) (p : Pin) (hp : p ∈ l) :
    pins_pwm l p.id = some (pwmEntry p.id) := by
  unfold pins_pwm pwmArms
  induction l with
  | nil => cases hp
  | cons h t ih =>
    rcases List.mem_cons.mp hp with rfl | hpt
    · simp [List.find?]
    · by_cases hh : h.id == p.id
      · have : h.id = p.id := by simpa using hh
        simp [List.find?, hh, pwmEntry, this]
      · simpa [List.find?, hh] using ih hpt

/-- C4.  For every declared pin id `n` (a non-negative integer small enough
that the script's `int(id / 2)` double arithmetic is exact), the emitted
`pins_pwm` resolver is defined (no error path: the Rust match is exhaustive
over the declared pins) and yields channel `(n / 2) % 8` with sub-channel A
exactly when `n` is even. -/
theorem pwm_channel_formula (l : List Pin) (p : Pin) (hp : p ∈ l) (n : Nat)
    (hid : p.id = (n : Int)) (hsz : n < 2 ^ 53) :
    pins_pwm l p.id = some ((((n / 2) % 8 : Nat) : Int), decide (n % 2 = 0)) := by
  rw [pins_pwm_mem l p hp]
  unfold pwmEntry
  rw [hid]
  have h1 : (Int.tdiv (n : Int) 2).emod 8 = (((n / 2) % 8 : Nat) : Int) := by
    rw [Int.tdiv_eq_ediv (by positivity) (by norm_num)]
    show ((n : Int) / 2) % 8 = _
    omega
  have h2 : ((n : Int).emod 2 == 0) = decide (n % 2 = 0) := by
    have : (n : Int).emod 2 = ((n % 2 : Nat) : Int) := by
      show (n : Int) % 2 = _
      omega
    rw [this]
    rcases Nat.mod_two_eq_zero_or_one n with h | h <;> simp [h]
  rw [h1, h2]

/-- C4 witness: pin 5 sits on channel 2, sub-channel B. -/
theorem pwm_channel_formula_witness :
    pins_pwm [⟨5, none, []⟩] 5 = some (2, false) := by
  have := pwm_channel_formula [⟨5, none, []⟩] ⟨5, none, []⟩ (by simp) 5 (by decide) (by norm_num)
  simpa using this

/-! ## I2C resolver lemmas -/

lemma i2cSdaArmsOf_key (q : Pin) : ∀ a ∈ i2cSdaArmsOf q, a.1 = q.id := by
  intro a ha
  unfold i2cSdaArmsOf at ha
  rcases List.mem_append.mp ha with h | h <;> split at h <;> simp_all

lemma i2cSclArmsOf_key (q : Pin) : ∀ a ∈ i2cSclArmsOf q, a.2 = q.id := by
  intro a ha
  unfold i2cSclArmsOf at ha
  rcases List.mem_append.mp ha with h | h <;> split at h <;> simp_all

lemma i2cSdaArms_find (l : List Pin) (hnd : (idsOf l).Nodup) (p : Pin) (hp : p ∈ l) :
    (i2cSdaArms l).find? (fun a => a.1 == p.id) = (sdaBusOf p).map (fun b => (p.id, b)) := by
  have h := flatMap_find_of_key i2cSdaArmsOf (fun a => a.1) i2cSdaArmsOf_key l hnd p hp
  rw [show i2cSdaArms l = l.flatMap i2cSdaArmsOf from rfl]
  rw [h]
  unfold i2cSdaArmsOf sdaBusOf
  by_cases h0 : "I2C0_SDA" ∈ p.roles <;> by_cases h1 : "I2C1_SDA" ∈ p.roles <;>
    simp [h0, h1, List.find?]

lemma sdaBusOf_cases (p : Pin) (b : Nat) (h : sdaBusOf p = some b) : b = 0 ∨ b = 1 := by
  unfold sdaBusOf at h
  split at h
  · exact Or.inl (by injection h with h'; omega)
  · split at h
    · exact Or.inr (by injection h with h'; omega)
    · cases h

lemma i2cSclArms_mem (l : List Pin) (hnd : (idsOf l).Nodup) (q : Pin) (hq : q ∈ l)
    (b : Nat) (hb : b = 0 ∨ b = 1) :
    ((b, q.id) ∈ i2cSclArms l) ↔ sclRoleOf b ∈ q.roles := by
  have h := flatMap_mem_of_key i2cSclArmsOf (fun a => a.2) i2cSclArmsOf_key l hnd q hq
    (b, q.id) rfl
  rw [show i2cSclArms l = l.flatMap i2cSclArmsOf from rfl]
  rw [h]
  unfold i2cSclArmsOf sclRoleOf
  rcases hb with rfl | rfl <;>
    by_cases h0 : "I2C0_SCL" ∈ q.roles <;> by_cases h1 : "I2C1_SCL" ∈ q.roles <;>
      simp [h0, h1]

/-- C2.  The emitted `pins_i2c` resolver: a `sda` pin without an SDA role
yields `none` for every `scl` argument; a `sda` pin mapped to bus `b` yields
`some b` exactly when the `scl` pin holds that bus's SCL role; in particular
`I2C0_SDA` with `I2C0_SCL` resolves to bus 0, and `I2C0_SDA` with `I2C1_SCL`
(and no `I2C0_SCL`) resolves to `none`. -/
theorem i2c_resolution (l : List Pin) (hnd : (idsOf l).Nodup) :
    (∀ p ∈ l, sdaBusOf p = none → ∀ scl, pins_i2c l p.id scl = none)
    ∧ (∀ p ∈ l, ∀ q ∈ l, ∀ b, sdaBusOf p = some b →
        pins_i2c l p.id q.id = if sclRoleOf b ∈ q.roles then some b else none)
    ∧ (∀ p ∈ l, ∀ q ∈ l, "I2C0_SDA" ∈ p.roles → "I2C0_SCL" ∈ q.roles →
        pins_i2c l p.id q.id = some 0)
    ∧ (∀ p ∈ l, ∀ q ∈ l, "I2C0_SDA" ∈ p.roles → "I2C1_SCL" ∈ q.roles →
        "I2C0_SCL" ∉ q.roles → pins_i2c l p.id q.id = none) := by
  have core : ∀ p ∈ l, ∀ q ∈ l, ∀ b, sdaBusOf p = some b →
      pins_i2c l p.id q.id = if sclRoleOf b ∈ q.roles then some b else none := by
    intro p hp q hq b hb
    unfold pins_i2c
    rw [i2cSdaArms_find l hnd p hp, hb]
    have hmem := i2cSclArms_mem l hnd q hq b (sdaBusOf_cases p b hb)
    by_cases hscl : sclRoleOf b ∈ q.roles
    · simp [hscl, hmem.mpr hscl]
    · have : ¬ ((b, q.id) ∈ i2cSclArms l) := fun h => hscl (hmem.mp h)
      simp [hscl, this]
  refine ⟨?_, core, ?_, ?_⟩
  · intro p hp hnone scl
    unfold pins_i2c
    rw [i2cSdaArms_find l hnd p hp, hnone]
    rfl
  · intro p hp q hq hsda hscl
    have hb : sdaBusOf p = some 0 := by unfold sdaBusOf; simp [hsda]
    rw [core p hp q hq 0 hb]
    simp [sclRoleOf, hscl]
  · intro p hp q hq hsda hscl1 hscl0
    have hb : sdaBusOf p = some 0 := by unfold sdaBusOf; simp [hsda]
    rw [core p hp q hq 0 hb]
    simp [sclRoleOf, hscl0]

/-- C2 witness: pin 5 (`I2C0_SDA`) with pin 6 (`I2C0_SCL`) resolves to bus 0,
and with pin 7 (`I2C1_SCL`) resolves to no bus. -/
theorem i2c_resolution_witness :
    pins_i2c [⟨5, none, ["I2C0_SDA"]⟩, ⟨6, none, ["I2C0_SCL"]⟩, ⟨7, none, ["I2C1_SCL"]⟩] 5 6
        = some 0
    ∧ pins_i2c [⟨5, none, ["I2C0_SDA"]⟩, ⟨6, none, ["I2C0_SCL"]⟩, ⟨7, none, ["I2C1_SCL"]⟩] 5 7
        = none := by
  constructor
  · exact (i2c_resolution _ (by decide)).2.2.1 ⟨5, none, ["I2C0_SDA"]⟩ (by simp)
      ⟨6, none, ["I2C0_SCL"]⟩ (by simp) (by decide) (by decide)
  · exact (i2c_resolution _ (by decide)).2.2.2 ⟨5, none, ["I2C0_SDA"]⟩ (by simp)
      ⟨7, none, ["I2C1_SCL"]⟩ (by simp) (by decide) (by decide) (by decide)

/-! ## SPI resolver lemmas -/

lemma spiTxArmsOf_key (q : Pin) : ∀ a ∈ spiTxArmsOf q, a.1 = q.id := by
  intro a ha
  unfold spiTxArmsOf at ha
  rcases List.mem_append.mp ha with h | h <;> split at h <;> simp_all

lemma spiSckArmsOf_key (q : Pin) : ∀ a ∈ spiSckArmsOf q, a.2 = q.id := by
  intro a ha
  unfold spiSckArmsOf at ha
  rcases List.mem_append.mp ha with h | h <;> split at h <;> simp_all

lemma spiRxArmsOf_key (q : Pin) : ∀ a ∈ spiRxArmsOf q, a.2.getD 0 = q.id := by
  intro a ha
  unfold spiRxArmsOf at ha
  rcases List.mem_append.mp ha with h | h <;> split at h <;> simp_all

lemma spiCsArmsOf_key (q : Pin) : ∀ a ∈ spiCsArmsOf q, a.2.getD 0 = q.id := by
  intro a ha
  unfold spiCsArmsOf at ha
  rcases List.mem_append.mp ha with h | h <;> split at h <;> simp_all

lemma spiTxArms_find (l : List Pin) (hnd : (idsOf l).Nodup) (p : Pin) (hp : p ∈ l) :
    (spiTxArms l).find? (fun a => a.1 == p.id) = (spiTxBusOf p).map (fun b => (p.id, b)) := by
  have h := flatMap_find_of_key spiTxArmsOf (fun a => a.1) spiTxArmsOf_key l hnd p hp
  rw [show spiTxArms l = l.flatMap spiTxArmsOf from rfl]
  rw [h]
  unfold spiTxArmsOf spiTxBusOf
  by_cases h0 : "SPI0_TX" ∈ p.roles <;> by_cases h1 : "SPI1_TX" ∈ p.roles <;>
    simp [h0, h1, List.find?]

lemma spiTxBusOf_cases (p : Pin) (b : Nat) (h : spiTxBusOf p = some b) : b = 0 ∨ b = 1 := by
  unfold spiTxBusOf at h
  split at h
  · exact Or.inl (by injection h with h'; omega)
  · split at h
    · exact Or.inr (by injection h with h'; omega)
    · cases h

lemma spiSckArms_mem (l : List Pin) (hnd : (idsOf l).Nodup) (q : Pin) (hq : q ∈ l)
    (b : Nat) (hb : b = 0 ∨ b = 1) :
    ((b, q.id) ∈ spiSckArms l) ↔ spiSckRoleOf b ∈ q.roles := by
  have h := flatMap_mem_of_key spiSckArmsOf (fun a => a.2) spiSckArmsOf_key l hnd q hq
    (b, q.id) rfl
  rw [show spiSckArms l = l.flatMap spiSckArmsOf from rfl]
  rw [h]
  unfold spiSckArmsOf spiSckRoleOf
  rcases hb with rfl | rfl <;>
    by_cases h0 : "SPI0_SCK" ∈ q.roles <;> by_cases h1 : "SPI1_SCK" ∈ q.roles <;>
      simp [h0, h1]

lemma spiRxArms_mem (l : List Pin) (hnd : (idsOf l).Nodup) (r : Pin) (hr : r ∈ l)
    (b : Nat) (hb : b = 0 ∨ b = 1) :
    ((b, some r.id) ∈ spiRxArms l) ↔ spiRxRoleOf b ∈ r.roles := by
  have h := flatMap_mem_of_key spiRxArmsOf (fun a => a.2.getD 0) spiRxArmsOf_key l hnd r hr
    (b, some r.id) rfl
  rw [show spiRxArms l = l.flatMap spiRxArmsOf from rfl]
  rw [h]
  unfold spiRxArmsOf spiRxRoleOf
  rcases hb with rfl | rfl <;>
    by_cases h0 : "SPI0_RX" ∈ r.roles <;> by_cases h1 : "SPI1_RX" ∈ r.roles <;>
      simp [h0, h1]

lemma spiCsArms_mem (l : List Pin) (hnd : (idsOf l).Nodup) (r : Pin) (hr : r ∈ l)
    (b : Nat) (hb : b = 0 ∨ b = 1) :
    ((b, some r.id) ∈ spiCsArms l) ↔ spiCsRoleOf b ∈ r.roles := by
  have h := flatMap_mem_of_key spiCsArmsOf (fun a => a.2.getD 0) spiCsArmsOf_key l hnd r hr
    (b, some r.id) rfl
  rw [show spiCsArms l = l.flatMap spiCsArmsOf from rfl]
  rw [h]
  unfold spiCsArmsOf spiCsRoleOf
  rcases hb with rfl | rfl <;>
    by_cases h0 : "SPI0_CS" ∈ r.roles <;> by_cases h1 : "SPI1_CS" ∈ r.roles <;>
      simp [h0, h1]

/-- C3.  The emitted `pins_spi` resolver: the bus is resolved from `tx`
(`none` when `tx` holds no SPI TX role); `none` when `sck` lacks that bus's
SCK role; the bus is returned immediately when both optional pins are absent
(regardless of any other pins' roles); and with at least one optional pin
drawn from the board, the result is the bus exactly when every present
optional pin holds that bus's RX (resp. CS) role - an absent optional pin is
always accepted. -/
theorem spi_resolution (l : List Pin) (hnd : (idsOf l).Nodup) :
    (∀ p ∈ l, spiTxBusOf p = none → ∀ sck rx cs, pins_spi l p.id sck rx cs = none)
    ∧ (∀ p ∈ l, ∀ q ∈ l, ∀ b, spiTxBusOf p = some b → spiSckRoleOf b ∉ q.roles →
        ∀ rx cs, pins_spi l p.id q.id rx cs = none)
    ∧ (∀ p ∈ l, ∀ q ∈ l, ∀ b, spiTxBusOf p = some b → spiSckRoleOf b ∈ q.roles →
        pins_spi l p.id q.id none none = some b)
    ∧ (∀ p ∈ l, ∀ q ∈ l, ∀ b, spiTxBusOf p = some b → spiSckRoleOf b ∈ q.roles →
        ∀ rxo cso : Option Pin, (∀ r, rxo = some r → r ∈ l) → (∀ r, cso = some r → r ∈ l) →
        pins_spi l p.id q.id (rxo.map Pin.id) (cso.map Pin.id) =
          if optHoldsRole rxo (spiRxRoleOf b) && optHoldsRole cso (spiCsRoleOf b)
          then some b else none) := by
  have hsck : ∀ q ∈ l, ∀ b, (b = 0 ∨ b = 1) →
      ((b, q.id) ∈ spiSckArms l) = (spiSckRoleOf b ∈ q.roles) := by
    intro q hq b hb
    exact propext (spiSckArms_mem l hnd q hq b hb)
  refine ⟨?_, ?_, ?_, ?_⟩
  · intro p hp hnone sck rx cs
    unfold pins_spi
    rw [spiTxArms_find l hnd p hp, hnone]
    rfl
  · intro p hp q hq b hb hq' rx cs
    unfold pins_spi
    rw [spiTxArms_find l hnd p hp, hb]
    have := hsck q hq b (spiTxBusOf_cases p b hb)
    have hnm : ¬ ((b, q.id) ∈ spiSckArms l) := by rw [this]; exact hq'
    simp [hnm]
  · intro p hp q hq b hb hq'
    unfold pins_spi
    rw [spiTxArms_find l hnd p hp, hb]
    have := hsck q hq b (spiTxBusOf_cases p b hb)
    have hm : ((b, q.id) ∈ spiSckArms l) := by rw [this]; exact hq'
    simp [hm]
  · intro p hp q hq b hb hq' rxo cso hrx hcs
    have hbc := spiTxBusOf_cases p b hb
    unfold pins_spi
    rw [spiTxArms_find l hnd p hp, hb]
    have hm : ((b, q.id) ∈ spiSckArms l) := by rw [hsck q hq b hbc]; exact hq'
    cases rxo with
    | none =>
      cases cso with
      | none => simp [hm, optHoldsRole]
      | some rc =>
        have hcl : rc ∈ l := hcs rc rfl
        have := spiCsArms_mem l hnd rc hcl b hbc
        by_cases hrole : spiCsRoleOf b ∈ rc.roles
        · simp [hm, optHoldsRole, spiOptOk, hrole, this.mpr hrole]
        · have : ¬ ((b, some rc.id) ∈ spiCsArms l) := fun hx => hrole (this.mp hx)
          simp [hm, optHoldsRole, spiOptOk, hrole, this]
    | some rr =>
      have hrl : rr ∈ l := hrx rr rfl
      have hrmem := spiRxArms_mem l hnd rr hrl b hbc
      cases cso with
      | none =>
        by_cases hrole : spiRxRoleOf b ∈ rr.roles
        · simp [hm, optHoldsRole, spiOptOk, hrole, hrmem.mpr hrole]
        · have : ¬ ((b, some rr.id) ∈ spiRxArms l) := fun hx => hrole (hrmem.mp hx)
          simp [hm, optHoldsRole, spiOptOk, hrole, this]
      | some rc =>
        have hcl : rc ∈ l := hcs rc rfl
        have hcmem := spiCsArms_mem l hnd rc hcl b hbc
        by_cases hrole1 : spiRxRoleOf b ∈ rr.roles <;>
          by_cases hrole2 : spiCsRoleOf b ∈ rc.roles
        · simp [hm, optHoldsRole, spiOptOk, hrole1, hrole2,
            hrmem.mpr hrole1, hcmem.mpr hrole2]
        · have h2 : ¬ ((b, some rc.id) ∈ spiCsArms l) := fun hx => hrole2 (hcmem.mp hx)
          simp [hm, optHoldsRole, spiOptOk, hrole1, hrole2, hrmem.mpr hrole1, h2]
        · have h1 : ¬ ((b, some rr.id) ∈ spiRxArms l) := fun hx => hrole1 (hrmem.mp hx)
          simp [hm, optHoldsRole, spiOptOk, hrole1, hrole2, h1]
        · have h1 : ¬ ((b, some rr.id) ∈ spiRxArms l) := fun hx => hrole1 (hrmem.mp hx)
          simp [hm, optHoldsRole, spiOptOk, hrole1, hrole2, h1]

/-- C3 witness: pins 5 (`SPI0_TX`) and 6 (`SPI0_SCK`) form bus 0 in the
2-wire configuration, and a present `rx` pin 7 that lacks `SPI0_RX` makes
the same combination resolve to no bus. -/
theorem spi_resolution_witness :
    pins_spi [⟨5, none, ["SPI0_TX"]⟩, ⟨6, none, ["SPI0_SCK"]⟩, ⟨7, none, ["UART0_TX"]⟩]
        5 6 none none = some 0
    ∧ pins_spi [⟨5, none, ["SPI0_TX"]⟩, ⟨6, none, ["SPI0_SCK"]⟩, ⟨7, none, ["UART0_TX"]⟩]
        5 6 (some 7) none = none := by
  constructor
  · exact (spi_resolution _ (by decide)).2.2.1 ⟨5, none, ["SPI0_TX"]⟩ (by simp)
      ⟨6, none, ["SPI0_SCK"]⟩ (by simp) 0 (by decide) (by decide)
  · have h := (spi_resolution
      [⟨5, none, ["SPI0_TX"]⟩, ⟨6, none, ["SPI0_SCK"]⟩, ⟨7, none, ["UART0_TX"]⟩]
      (by decide)).2.2.2 ⟨5, none, ["SPI0_TX"]⟩ (by simp)
      ⟨6, none, ["SPI0_SCK"]⟩ (by simp) 0 (by decide) (by decide)
      (some ⟨7, none, ["UART0_TX"]⟩) none
      (by intro r hr; injection hr with hr; simp [← hr]) (by intro r hr; cases hr)
    simpa using h

/-! ## Role validation lemmas -/

lemma i2c_vocab_disjoint : ∀ v ∈ VALID_I2C, v ∉ VALID_SPI ∧ v ∉ VALID_UART := by
  intro v hv
  simp only [VALID_I2C, List.mem_cons, List.not_mem_nil, or_false] at hv
  rcases hv with rfl | rfl | rfl | rfl <;> exact ⟨by decide, by decide⟩

lemma spi_vocab_disjoint : ∀ v ∈ VALID_SPI, v ∉ VALID_UART := by
  intro v hv
  simp only [VALID_SPI, List.mem_cons, List.not_mem_nil, or_false] at hv
  rcases hv with rfl | rfl | rfl | rfl | rfl | rfl | rfl | rfl <;> decide

lemma classCount_append_one (cls : List String) (l : List String) (v : String) :
    classCount cls (l ++ [v]) = classCount cls l + (if v ∈ cls then 1 else 0) := by
  by_cases h : v ∈ cls <;> simp [classCount, List.filter_append, List.filter_cons, h]

lemma classTokCount_cons (cls : List String) (t : String) (ts : List String) :
    classTokCount cls (t :: ts) =
      (if strUpper t ∈ cls then 1 else 0) + classTokCount cls ts := by
  by_cases h : strUpper t ∈ cls <;> simp [classTokCount, List.filter_cons, h] <;> omega

lemma empty_tok_upper (t : String) (h : t.toList.length = 0) : strUpper t = "" := by
  have ht : t.toList = [] := List.length_eq_zero.mp h
  unfold strUpper
  rw [ht]
  rfl

lemma mkPinRoles_ok_spec (pid : Int) :
    ∀ (ts acc : List String) (i s u : Nat) (out : List String) (i' s' u' : Nat),
      mkPinRoles pid acc i s u ts = .ok (out, i', s', u') →
      classCount VALID_I2C out = classCount VALID_I2C acc + classTokCount VALID_I2C ts ∧
      classCount VALID_SPI out = classCount VALID_SPI acc + classTokCount VALID_SPI ts ∧
      classCount VALID_UART out = classCount VALID_UART acc + classTokCount VALID_UART ts ∧
      i' = i + classTokCount VALID_I2C ts ∧
      s' = s + classTokCount VALID_SPI ts ∧
      u' = u + classTokCount VALID_UART ts := by
  intro ts
  induction ts with
  | nil =>
    intro acc i s u out i' s' u' h
    simp only [mkPinRoles, Except.ok.injEq, Prod.mk.injEq] at h
    obtain ⟨h1, h2, h3, h4⟩ := h
    subst h1; subst h2; subst h3; subst h4
    simp [classTokCount]
  | cons t ts ih =>
    intro acc i s u out i' s' u' h
    by_cases hlen : t.toList.length = 0
    · rw [mkPinRoles, if_pos hlen] at h
      have hu := empty_tok_upper t hlen
      have hcc : ∀ cls ∈ [VALID_I2C, VALID_SPI, VALID_UART],
          classTokCount cls (t :: ts) = classTokCount cls ts := by
        intro cls hcls
        rw [classTokCount_cons]
        fin_cases hcls <;> rw [hu] <;> rw [if_neg (by decide)] <;> omega
      obtain ⟨a1, a2, a3, a4, a5, a6⟩ := ih acc i s u out i' s' u' h
      refine ⟨?_, ?_, ?_, ?_, ?_, ?_⟩ <;>
        first
          | (rw [hcc VALID_I2C (by simp)]; omega)
          | (rw [hcc VALID_SPI (by simp)]; omega)
          | (rw [hcc VALID_UART (by simp)]; omega)
    · by_cases h1 : strUpper t ∈ VALID_I2C
      · rw [mkPinRoles, if_neg hlen, if_pos h1] at h
        obtain ⟨a1, a2, a3, a4, a5, a6⟩ := ih (acc ++ [strUpper t]) (i + 1) s u out i' s' u' h
        have hd := i2c_vocab_disjoint (strUpper t) h1
        rw [classCount_append_one, if_pos h1] at a1
        rw [classCount_append_one, if_neg hd.1] at a2
        rw [classCount_append_one, if_neg hd.2] at a3
        rw [classTokCount_cons, if_pos h1]
        rw [show classTokCount VALID_SPI (t :: ts) = classTokCount VALID_SPI ts from by
          rw [classTokCount_cons, if_neg hd.1]; omega]
        rw [show classTokCount VALID_UART (t :: ts) = classTokCount VALID_UART ts from by
          rw [classTokCount_cons, if_neg hd.2]; omega]
        refine ⟨by omega, by omega, by omega, by omega, by omega, by omega⟩
      · by_cases h2 : strUpper t ∈ VALID_SPI
        · rw [mkPinRoles, if_neg hlen, if_neg h1, if_pos h2] at h
          obtain ⟨a1, a2, a3, a4, a5, a6⟩ := ih (acc ++ [strUpper t]) i (s + 1) u out i' s' u' h
          have hd := spi_vocab_disjoint (strUpper t) h2
          rw [classCount_append_one, if_neg h1] at a1
          rw [classCount_append_one, if_pos h2] at a2
          rw [classCount_append_one, if_neg hd] at a3
          rw [classTokCount_cons, if_neg h1]
          rw [show classTokCount VALID_SPI (t :: ts) = 1 + classTokCount VALID_SPI ts from by
            rw [classTokCount_cons, if_pos h2]]
          rw [show classTokCount VALID_UART (t :: ts) = classTokCount VALID_UART ts from by
            rw [classTokCount_cons, if_neg hd]; omega]
          refine ⟨by omega, by omega, by omega, by omega, by omega, by omega⟩
        · by_cases h3 : strUpper t ∈ VALID_UART
          · rw [mkPinRoles, if_neg hlen, if_neg h1, if_neg h2, if_pos h3] at h
            obtain ⟨a1, a2, a3, a4, a5, a6⟩ :=
              ih (acc ++ [strUpper t]) i s (u + 1) out i' s' u' h
            rw [classCount_append_one, if_neg h1] at a1
            rw [classCount_append_one, if_neg h2] at a2
            rw [classCount_append_one, if_pos h3] at a3
            rw [classTokCount_cons, if_neg h1]
            rw [show classTokCount VALID_SPI (t :: ts) = classTokCount VALID_SPI ts from by
              rw [classTokCount_cons, if_neg h2]; omega]
            rw [show classTokCount VALID_UART (t :: ts) = 1 + classTokCount VALID_UART ts from by
              rw [classTokCount_cons, if_pos h3]]
            refine ⟨by omega, by omega, by omega, by omega, by omega, by omega⟩
          · rw [mkPinRoles, if_neg hlen, if_neg h1, if_neg h2, if_neg h3] at h
            cases h

lemma mkPinRoles_invalid (pid : Int) :
    ∀ (ts acc : List String) (i s u : Nat),
      (∃ t ∈ ts, t.toList.length ≠ 0 ∧ strUpper t ∉ VALID_I2C ∧ strUpper t ∉ VALID_SPI ∧
        strUpper t ∉ VALID_UART) →
      ∃ e, mkPinRoles pid acc i s u ts = .error e := by
  intro ts
  induction ts with
  | nil =>
    intro acc i s u h
    obtain ⟨t, ht, _⟩ := h
    cases ht
  | cons t ts ih =>
    intro acc i s u h
    obtain ⟨t0, ht0, hw⟩ := h
    rcases List.mem_cons.mp ht0 with rfl | htail
    · rw [mkPinRoles, if_neg hw.1, if_neg hw.2.1, if_neg hw.2.2.1, if_neg hw.2.2.2]
      exact ⟨_, rfl⟩
    · by_cases hlen : t.toList.length = 0
      · rw [mkPinRoles, if_pos hlen]
        exact ih acc i s u ⟨t0, htail, hw⟩
      · by_cases h1 : strUpper t ∈ VALID_I2C
        · rw [mkPinRoles, if_neg hlen, if_pos h1]
          exact ih _ _ _ _ ⟨t0, htail, hw⟩
        · by_cases h2 : strUpper t ∈ VALID_SPI
          · rw [mkPinRoles, if_neg hlen, if_neg h1, if_pos h2]
            exact ih _ _ _ _ ⟨t0, htail, hw⟩
          · by_cases h3 : strUpper t ∈ VALID_UART
            · rw [mkPinRoles, if_neg hlen, if_neg h1, if_neg h2, if_pos h3]
              exact ih _ _ _ _ ⟨t0, htail, hw⟩
            · rw [mkPinRoles, if_neg hlen, if_neg h1, if_neg h2, if_neg h3]
              exact ⟨_, rfl⟩

lemma mkPin_ok_classCounts (pid : Int) (doc : List String) (roles : Option (List String))
    (pin : Pin) (h : mkPin pid doc roles = .ok pin) :
    classCount VALID_I2C pin.roles ≤ 1 ∧ classCount VALID_SPI pin.roles ≤ 1 ∧
    classCount VALID_UART pin.roles ≤ 1 := by
  cases roles with
  | none =>
    simp only [mkPin, Except.ok.injEq] at h
    subst h
    simp [classCount]
  | some rs =>
    simp only [mkPin] at h
    cases hmr : mkPinRoles pid [] 0 0 0 rs with
    | error e => rw [hmr] at h; cases h
    | ok val =>
      obtain ⟨out, i, s, u⟩ := val
      rw [hmr] at h
      dsimp only at h
      by_cases hi : 1 < i
      · rw [if_pos hi] at h; cases h
      · rw [if_neg hi] at h
        by_cases hs : 1 < s
        · rw [if_pos hs] at h; cases h
        · rw [if_neg hs] at h
          by_cases hu : 1 < u
          · rw [if_pos hu] at h; cases h
          · rw [if_neg hu] at h
            obtain ⟨a1, a2, a3, a4, a5, a6⟩ := mkPinRoles_ok_spec pid rs [] 0 0 0 out i s u hmr
            have hroles : pin.roles = out := by
              cases h
              rfl
            rw [hroles]
            simp only [classCount, List.filter_nil, List.length_nil, Nat.zero_add] at a1 a2 a3 ⊢
            omega

lemma mkPin_invalid_tok (pid : Int) (doc ts : List String)
    (h : ∃ t ∈ ts, t.toList.length ≠ 0 ∧ strUpper t ∉ VALID_I2C ∧ strUpper t ∉ VALID_SPI ∧
      strUpper t ∉ VALID_UART) :
    ∃ e, mkPin pid doc (some ts) = .error e := by
  obtain ⟨e, he⟩ := mkPinRoles_invalid pid ts [] 0 0 0 h
  refine ⟨e, ?_⟩
  simp only [mkPin]
  rw [he]

lemma mkPin_multi_class (pid : Int) (doc ts : List String)
    (h : 1 < classTokCount VALID_I2C ts ∨ 1 < classTokCount VALID_SPI ts ∨
      1 < classTokCount VALID_UART ts) :
    ∃ e, mkPin pid doc (some ts) = .error e := by
  cases hm : mkPin pid doc (some ts) with
  | error e => exact ⟨e, rfl⟩
  | ok pin =>
    exfalso
    simp only [mkPin] at hm
    cases hmr : mkPinRoles pid [] 0 0 0 ts with
    | error e => rw [hmr] at hm; cases hm
    | ok val =>
      obtain ⟨out, i, s, u⟩ := val
      rw [hmr] at hm
      dsimp only at hm
      obtain ⟨_, _, _, a4, a5, a6⟩ := mkPinRoles_ok_spec pid ts [] 0 0 0 out i s u hmr
      by_cases hi : 1 < i
      · rw [if_pos hi] at hm; cases hm
      · rw [if_neg hi] at hm
        by_cases hs : 1 < s
        · rw [if_pos hs] at hm; cases hm
        · rw [if_neg hs] at hm
          by_cases hu : 1 < u
          · rw [if_pos hu] at hm; cases hm
          · omega

/-- C6.  Role validation in `Pin.__init__`: every successfully constructed
pin holds at most one role of each peripheral class; a nonempty token outside
the three vocabularies forces an error; more than one token of a single class
forces an error (with the message naming pin and class, shown concretely for
each class); and a cross-class combination such as one SPI plus one UART role
is accepted unchanged. -/
theorem role_exclusivity :
    (∀ (pid : Int) (doc : List String) (roles : Option (List String)) (pin : Pin),
        mkPin pid doc roles = .ok pin →
        classCount VALID_I2C pin.roles ≤ 1 ∧ classCount VALID_SPI pin.roles ≤ 1 ∧
        classCount VALID_UART pin.roles ≤ 1)
    ∧ (∀ (pid : Int) (doc ts : List String),
        (∃ t ∈ ts, t.toList.length ≠ 0 ∧ strUpper t ∉ VALID_I2C ∧ strUpper t ∉ VALID_SPI ∧
          strUpper t ∉ VALID_UART) →
        ∃ e, mkPin pid doc (some ts) = .error e)
    ∧ (∀ (pid : Int) (doc ts : List String),
        1 < classTokCount VALID_I2C ts ∨ 1 < classTokCount VALID_SPI ts ∨
          1 < classTokCount VALID_UART ts →
        ∃ e, mkPin pid doc (some ts) = .error e)
    ∧ mkPin 3 [] (some ["I2C0_SDA", "I2C1_SDA"]) = .error (errSingleRole 3 "I2C")
    ∧ mkPin 3 [] (some ["SPI0_RX", "SPI1_TX"]) = .error (errSingleRole 3 "SPI")
    ∧ mkPin 3 [] (some ["UART0_TX", "UART1_RX"]) = .error (errSingleRole 3 "UART")
    ∧ mkPin 7 [] (some ["BOGUS"]) = .error (errInvalidRole 7 "BOGUS")
    ∧ mkPin 4 [] (some ["SPI0_TX", "UART0_RX"]) = .ok ⟨4, none, ["SPI0_TX", "UART0_RX"]⟩ :=
  ⟨mkPin_ok_classCounts, mkPin_invalid_tok, mkPin_multi_class,
    by decide, by decide, by decide, by decide, by decide⟩

/-- C6 witness: two I2C tokens on one pin (case-insensitively) are rejected. -/
theorem role_exclusivity_witness :
    1 < classTokCount VALID_I2C ["i2c0_scl", "I2C0_SDA"]
    ∧ (∃ e, mkPin 9 [] (some ["i2c0_scl", "I2C0_SDA"]) = .error e) :=
  ⟨by decide, role_exclusivity.2.2.1 9 [] ["i2c0_scl", "I2C0_SDA"] (Or.inl (by decide))⟩

/-! ## Pin-entry loop lemmas -/

lemma isCommentLine_length {line : String} (h : isCommentLine line = true) :
    line.toList.length ≠ 0 := by
  unfold isCommentLine at h
  rcases hl : line.toList with _ | ⟨c1, _ | ⟨c2, tl⟩⟩ <;> rw [hl] at h <;> simp_all

lemma lineColon_nonempty {line : String} {i : Nat} (h : lineColon line = some i) :
    line.toList.length ≠ 0 := by
  unfold lineColon at h
  intro hlen
  rw [List.length_eq_zero.mp hlen] at h
  simp at h

lemma mkPin_id (pid : Int) (doc : List String) (roles : Option (List String)) (pin : Pin)
    (h : mkPin pid doc roles = .ok pin) : pin.id = pid := by
  cases roles with
  | none =>
    simp only [mkPin, Except.ok.injEq] at h
    subst h
    rfl
  | some rs =>
    simp only [mkPin] at h
    cases hmr : mkPinRoles pid [] 0 0 0 rs with
    | error e => rw [hmr] at h; cases h
    | ok val =>
      obtain ⟨out, i, s, u⟩ := val
      rw [hmr] at h
      dsimp only at h
      by_cases hi : 1 < i
      · rw [if_pos hi] at h; cases h
      · rw [if_neg hi] at h
        by_cases hs : 1 < s
        · rw [if_pos hs] at h; cases h
        · rw [if_neg hs] at h
          by_cases hu : 1 < u
          · rw [if_pos hu] at h; cases h
          · rw [if_neg hu] at h
            cases h
            rfl

lemma pinsLoop_comment_step (line : String) (rest : List String) (c : List String)
    (g : List Int) (p : List Pin) (h : isCommentLine line = true) :
    pinsLoop (line :: rest) c g p = pinsLoop rest (c ++ [strStrip (stripComment line)]) g p := by
  rw [pinsLoop, if_neg (isCommentLine_length h), if_pos h]

lemma pinsLoop_emptyrest_step (line : String) (rest : List String) (c : List String)
    (g : List Int) (p : List Pin) (i : Nat) (n : Int)
    (hcom : isCommentLine line = false) (hcol : lineColon line = some i) (hi : 0 < i)
    (hpy : pyInt (String.mk (line.toList.take i)) = some n) (hg : n ∉ g)
    (hlen : i + 1 = line.toList.length) :
    pinsLoop (line :: rest) c g p = pinsLoop rest [] (g ++ [n]) p := by
  rw [pinsLoop, if_neg (lineColon_nonempty hcol), if_neg (by simp [hcom]), hcol]
  dsimp only
  rw [if_neg (by omega), hpy]
  dsimp only
  rw [if_neg hg, if_pos hlen]

lemma pinsLoop_badid_step (line : String) (rest : List String) (c : List String)
    (g : List Int) (p : List Pin) (i : Nat)
    (hcom : isCommentLine line = false) (hcol : lineColon line = some i) (hi : 0 < i)
    (hpy : pyInt (String.mk (line.toList.take i)) = none) :
    pinsLoop (line :: rest) c g p = .error (errInvalidId (String.mk (line.toList.take i))) := by
  rw [pinsLoop, if_neg (lineColon_nonempty hcol), if_neg (by simp [hcom]), hcol]
  dsimp only
  rw [if_neg (by omega), hpy]

lemma pinsLoop_dup_step (line : String) (rest : List String) (c : List String)
    (g : List Int) (p : List Pin) (i : Nat) (n : Int)
    (hcom : isCommentLine line = false) (hcol : lineColon line = some i) (hi : 0 < i)
    (hpy : pyInt (String.mk (line.toList.take i)) = some n) (hg : n ∈ g) :
    pinsLoop (line :: rest) c g p = .error (errDupId n) := by
  rw [pinsLoop, if_neg (lineColon_nonempty hcol), if_neg (by simp [hcom]), hcol]
  dsimp only
  rw [if_neg (by omega), hpy]
  dsimp only
  rw [if_pos hg]

lemma pinsLoop_ok_mem :
    ∀ (lines : List String) (c : List String) (g : List Int) (p out : List Pin),
      pinsLoop lines c g p = .ok out → ∀ pin ∈ out, pin ∈ p ∨ pin.id ∉ g := by
  intro lines
  induction lines with
  | nil =>
    intro c g p out h pin hpin
    simp only [pinsLoop, Except.ok.injEq] at h
    subst h
    exact Or.inl hpin
  | cons line rest ih =>
    intro c g p out h pin hpin
    by_cases hlen : line.toList.length = 0
    · rw [pinsLoop, if_pos hlen] at h
      exact ih c g p out h pin hpin
    · rw [pinsLoop, if_neg hlen] at h
      by_cases hcom : isCommentLine line
      · rw [if_pos hcom] at h
        exact ih _ g p out h pin hpin
      · rw [if_neg hcom] at h
        cases hcol : lineColon line with
        | none => rw [hcol] at h; cases h
        | some i =>
          rw [hcol] at h
          dsimp only at h
          by_cases hi : i = 0
          · rw [if_pos hi] at h; cases h
          · rw [if_neg hi] at h
            cases hpy : pyInt (String.mk (line.toList.take i)) with
            | none => rw [hpy] at h; cases h
            | some n =>
              rw [hpy] at h
              dsimp only at h
              by_cases hg : n ∈ g
              · rw [if_pos hg] at h; cases h
              · rw [if_neg hg] at h
                by_cases hl2 : i + 1 = line.toList.length
                · rw [if_pos hl2] at h
                  rcases ih _ _ _ _ h pin hpin with hp | hng
                  · exact Or.inl hp
                  · exact Or.inr (fun hmem => hng (List.mem_append_left _ hmem))
                · rw [if_neg hl2] at h
                  cases hmk : mkPin n c
                      (pinRoleArg (strStrip (String.mk (line.toList.drop (i + 1))))) with
                  | error msg => rw [hmk] at h; cases h
                  | ok newpin =>
                    rw [hmk] at h
                    dsimp only at h
                    rcases ih _ _ _ _ h pin hpin with hp | hng
                    · rcases List.mem_append.mp hp with hp1 | hp2
                      · exact Or.inl hp1
                      · have hpn : pin = newpin := by simpa using hp2
                        have hid := mkPin_id n c _ newpin hmk
                        exact Or.inr (by rw [hpn, hid]; exact hg)
                    · exact Or.inr (fun hmem => hng (List.mem_append_left _ hmem))

lemma pinsLoop_ok_nodup :
    ∀ (lines : List String) (c : List String) (g : List Int) (p out : List Pin),
      List.Nodup g → pinsLoop lines c g p = .ok out →
      (g ++ lines.filterMap entryId).Nodup := by
  intro lines
  induction lines with
  | nil =>
    intro c g p out hg _
    simpa using hg
  | cons line rest ih =>
    intro c g p out hg h
    by_cases hlen : line.toList.length = 0
    · rw [pinsLoop, if_pos hlen] at h
      have he : entryId line = none := by
        unfold entryId
        rw [if_pos hlen]
      rw [List.filterMap_cons, he]
      exact ih c g p out hg h
    · rw [pinsLoop, if_neg hlen] at h
      by_cases hcom : isCommentLine line
      · rw [if_pos hcom] at h
        have he : entryId line = none := by
          unfold entryId
          rw [if_neg hlen, if_pos hcom]
        rw [List.filterMap_cons, he]
        exact ih _ g p out hg h
      · rw [if_neg hcom] at h
        cases hcol : lineColon line with
        | none => rw [hcol] at h; cases h
        | some i =>
          rw [hcol] at h
          dsimp only at h
          by_cases hi : i = 0
          · rw [if_pos hi] at h; cases h
          · rw [if_neg hi] at h
            cases hpy : pyInt (String.mk (line.toList.take i)) with
            | none => rw [hpy] at h; cases h
            | some n =>
              rw [hpy] at h
              dsimp only at h
              by_cases hgn : n ∈ g
              · rw [if_pos hgn] at h; cases h
              · rw [if_neg hgn] at h
                have he : entryId line = some n := by
                  unfold entryId
                  rw [if_neg hlen, if_neg hcom, hcol]
                  dsimp only
                  rw [if_neg hi, hpy]
                have hgn' : (g ++ [n]).Nodup := by
                  simp [List.nodup_append, hg, hgn]
                rw [List.filterMap_cons, he]
                by_cases hl2 : i + 1 = line.toList.length
                · rw [if_pos hl2] at h
                  have := ih _ _ _ _ hgn' h
                  rwa [List.append_assoc] at this
                · rw [if_neg hl2] at h
                  cases hmk : mkPin n c
                      (pinRoleArg (strStrip (String.mk (line.toList.drop (i + 1))))) with
                  | error msg => rw [hmk] at h; cases h
                  | ok newpin =>
                    rw [hmk] at h
                    dsimp only at h
                    have := ih _ _ _ _ hgn' h
                    rwa [List.append_assoc] at this

/-- C1 (amended).  A pin-entry line whose rest after the colon is empty
declares no pin at all: the loop records the id for duplicate detection and
clears the pending comment buffer, but appends nothing to the output, and no
pin with that id can appear later in a successful run. -/
theorem empty_rest_entry :
    (∀ (line : String) (rest : List String) (c : List String) (g : List Int) (p : List Pin)
        (i : Nat) (n : Int),
        isCommentLine line = false → lineColon line = some i → 0 < i →
        pyInt (String.mk (line.toList.take i)) = some n → n ∉ g →
        i + 1 = line.toList.length →
        pinsLoop (line :: rest) c g p = pinsLoop rest [] (g ++ [n]) p)
    ∧ (∀ (rest : List String) (out : List Pin),
        pinsOf ("5:" :: rest) = .ok out → ∀ pin ∈ out, pin.id ≠ 5) := by
  refine ⟨pinsLoop_emptyrest_step, ?_⟩
  intro rest out h pin hpin
  unfold pinsOf at h
  rw [pinsLoop_emptyrest_step "5:" rest [] [] [] 1 5 (by decide) (by decide) (by decide)
    (by decide) (by simp) (by decide)] at h
  rcases pinsLoop_ok_mem rest [] ([] ++ [5]) [] out h pin hpin with hp | hng
  · cases hp
  · intro he
    exact hng (by simp [he])

/-- C1 witness: the step equality at the concrete line `5:` with a pending
comment buffer - the buffer is dropped, the id recorded, no pin emitted. -/
theorem empty_rest_entry_witness :
    pinsLoop ["5:", "7: -"] ["docline"] [] [] = pinsLoop ["7: -"] [] [5] [] := by
  have h := empty_rest_entry.1 "5:" ["7: -"] ["docline"] [] [] 1 5 (by decide) (by decide)
    (by decide) (by decide) (by simp) (by decide)
  simpa using h

/-- C1 counterexample: the claim asserts that a lone `5:` entry (after a
comment line) yields a declared pin with id 5, empty roles, and the comment
attached as doc; the code instead produces no pin at all. -/
theorem empty_rest_entry_counterexample :
    pinsOf ["// d", "5:"] = .ok ([] : List Pin) := by decide

/-- C5 (amended).  A pin-entry prefix that `int(s, 10)` cannot parse raises
the invalid-pin-ID error; but the accepted grammar is that of Python integer
literals, which includes negative values such as `-5`, so a negative prefix
is accepted rather than rejected. -/
theorem pin_id_parse_failure :
    ∀ (line : String) (rest : List String) (c : List String) (g : List Int) (p : List Pin)
      (i : Nat), isCommentLine line = false → lineColon line = some i → 0 < i →
      pyInt (String.mk (line.toList.take i)) = none →
      pinsLoop (line :: rest) c g p = .error (errInvalidId (String.mk (line.toList.take i))) :=
  pinsLoop_badid_step

/-- C5 witness: the non-numeric prefix `x5` is rejected with the
invalid-pin-ID error. -/
theorem pin_id_parse_failure_witness :
    pinsOf ["x5:"] = .error (errInvalidId "x5") := by
  have h := pin_id_parse_failure "x5:" [] [] [] [] 2 (by decide) (by decide) (by decide)
    (by decide)
  simpa using h

/-- C5 counterexample: the prefix `-5` is not a non-negative integer, yet the
entry parses successfully and declares a pin with the negative id `-5`. -/
theorem pin_id_parse_failure_counterexample :
    pinsOf ["-5: -"] = .ok [⟨-5, none, []⟩] ∧ pyInt "-5" = some (-5) ∧ (-5 : Int) < 0 := by
  refine ⟨by decide, by decide, by decide⟩

/-- C7.  Duplicate pin ids: a successful run of the `_pins` loop implies the
pin ids announced by the entry lines are pairwise distinct (so any repeat -
role-less first occurrence included - fails), failure is witnessed on any
line list whose entry ids repeat, and the two-line file of the claim fails
with the duplicate-id error through the full parser. -/
theorem duplicate_pin_id :
    (∀ (lines : List String) (c : List String) (g : List Int) (p out : List Pin),
        List.Nodup g → pinsLoop lines c g p = .ok out →
        (g ++ lines.filterMap entryId).Nodup)
    ∧ (∀ lines : List String, ¬ (lines.filterMap entryId).Nodup →
        ∃ e, pinsOf lines = .error e)
    ∧ parseLines ["My Board", "#abc", "5:", "5: I2C0_SDA", ""] = .error (errDupId 5) := by
  refine ⟨pinsLoop_ok_nodup, ?_, by decide⟩
  intro lines hdup
  cases h : pinsOf lines with
  | error e => exact ⟨e, rfl⟩
  | ok out =>
    exfalso
    have := pinsLoop_ok_nodup lines [] [] [] out (by simp) h
    simp only [List.nil_append] at this
    exact hdup this

/-- C7 witness: the id list `5`, `5` of the claim's two lines is a repeat,
so the loop fails. -/
theorem duplicate_pin_id_witness :
    ¬ ((["5:", "5: I2C0_SDA"].filterMap entryId).Nodup)
    ∧ ∃ e, pinsOf ["5:", "5: I2C0_SDA"] = .error e :=
  ⟨by decide, duplicate_pin_id.2.1 ["5:", "5: I2C0_SDA"] (by decide)⟩

/-! ## Comment stripping, tag search, identifier length -/

lemma stripCommentList_dropWhile :
    ∀ cs : List Char, (∃ c ∈ cs, ¬(c.toNat = 0x2F ∨ c.toNat = 0x20)) →
      stripCommentList cs =
        some (cs.dropWhile (fun c => c.toNat == 0x2F || c.toNat == 0x20)) := by
  intro cs
  induction cs with
  | nil =>
    intro h
    obtain ⟨c, hc, _⟩ := h
    cases hc
  | cons c rest ih =>
    intro h
    by_cases hc : c.toNat = 0x2F ∨ c.toNat = 0x20
    · rw [stripCommentList, if_pos hc, List.dropWhile_cons_of_pos (by simpa using hc)]
      apply ih
      obtain ⟨c0, hc0, hw⟩ := h
      rcases List.mem_cons.mp hc0 with rfl | htail
      · exact absurd hc hw
      · exact ⟨c0, htail, hw⟩
    · rw [stripCommentList, if_neg hc, List.dropWhile_cons_of_neg (by simpa using hc)]

lemma stripCommentList_all_stripped :
    ∀ cs : List Char, (∀ c ∈ cs, c.toNat = 0x2F ∨ c.toNat = 0x20) →
      stripCommentList cs = none := by
  intro cs
  induction cs with
  | nil => intro _; rfl
  | cons c rest ih =>
    intro h
    rw [stripCommentList, if_pos (h c (by simp))]
    exact ih (fun c0 hc0 => h c0 (List.mem_cons_of_mem c hc0))

/-- C9 (amended).  A `//` line appends `strip(_strip_comment(line))` to the
pending doc buffer; `_strip_comment` removes the entire maximal leading run
of `/` and space characters (not just `//` plus one character), returning the
line unchanged when it consists only of such characters.  Hence `//// x`
stores the doc line `x`, not `/ x`. -/
theorem comment_doc_line :
    (∀ (line : String) (rest : List String) (c : List String) (g : List Int) (p : List Pin),
        isCommentLine line = true →
        pinsLoop (line :: rest) c g p =
          pinsLoop rest (c ++ [strStrip (stripComment line)]) g p)
    ∧ (∀ v : String, (∃ ch ∈ v.toList, ¬(ch.toNat = 0x2F ∨ ch.toNat = 0x20)) →
        stripComment v =
          String.mk (v.toList.dropWhile (fun ch => ch.toNat == 0x2F || ch.toNat == 0x20)))
    ∧ (∀ v : String, (∀ ch ∈ v.toList, ch.toNat = 0x2F ∨ ch.toNat = 0x20) →
        stripComment v = v) := by
  refine ⟨pinsLoop_comment_step, ?_, ?_⟩
  · intro v h
    unfold stripComment
    rw [stripCommentList_dropWhile v.toList h]
  · intro v h
    unfold stripComment
    rw [stripCommentList_all_stripped v.toList h]

/-- C9 witness: `_strip_comment` on `//// x` yields `x` - the whole leading
run of slashes and the space are removed. -/
theorem comment_doc_line_witness :
    stripComment "//// x" = "x" := by
  rw [comment_doc_line.2.1 "//// x" (by decide)]
  decide

/-- C9 counterexample: the accumulated doc line for `//// x` is `x`, not the
`/ x` the claim predicts. -/
theorem comment_doc_line_counterexample :
    pinsOf ["//// x", "3: -"] = .ok [⟨3, some ["x"], []⟩] ∧ ("x" : String) ≠ "/ x" := by
  exact ⟨by decide, by decide⟩

lemma isHashLine_length {l : String} (h : isHashLine l = true) : l.toList.length ≠ 0 := by
  unfold isHashLine at h
  rcases hl : l.toList with _ | ⟨c, tl⟩ <;> rw [hl] at h <;> simp_all

lemma hash_not_comment {l : String} (h : isHashLine l = true) : isCommentLine l = false := by
  unfold isHashLine at h
  unfold isCommentLine
  rcases hl : l.toList with _ | ⟨c1, _ | ⟨c2, tl⟩⟩ <;> rw [hl] at h <;> simp_all

/-- C8 (amended).  The Tag line must start with `#` and have at least four
characters in total (so the tag value after `#` has at least three); a
shorter `#` line without a colon is skipped and the search continues, rather
than the line being accepted. -/
theorem tag_line_search :
    (∀ (l : String) (rest : List String), isHashLine l = true → 4 ≤ l.toList.length →
        tagFind (l :: rest) = .ok (String.mk (l.toList.drop 1), rest))
    ∧ (∀ (l : String) (rest : List String), isHashLine l = true → l.toList.length < 4 →
        l.toList.contains ':' = false → tagFind (l :: rest) = tagFind rest) := by
  constructor
  · intro l rest hh hlen
    rw [tagFind, if_neg (by omega), if_neg (by simp [hash_not_comment hh]),
      if_pos ⟨hh, hlen⟩]
  · intro l rest hh hlen hcolon
    rw [tagFind, if_neg (isHashLine_length hh), if_neg (by simp [hash_not_comment hh]),
      if_neg (by intro hx; omega), if_neg (by rw [hcolon]; simp)]

/-- C8 witness: `#abc` (four characters) is accepted with value `abc`, and
the three-character `#ab` before it is skipped. -/
theorem tag_line_search_witness :
    tagFind ["#abc"] = .ok ("abc", []) ∧ tagFind ["#ab", "#abc"] = tagFind ["#abc"] := by
  constructor
  · rw [tag_line_search.1 "#abc" [] (by decide) (by decide)]
    decide
  · exact tag_line_search.2 "#ab" ["#abc"] (by decide) (by decide) (by decide)

/-- C8 counterexample: the claim accepts the 3-character line `#ab` as the
Tag; the code skips it (failing here for lack of any later tag line). -/
theorem tag_line_search_counterexample :
    tagFind ["#ab"] = .error "#<tag> entry was not found"
    ∧ tagFind ["#ab", "#abc"] = .ok ("abc", []) := by
  exact ⟨by decide, by decide⟩

/-- C10.  `_check_ascii` rejects every value of length zero or one, for both
grammars, whatever its characters; through `parse` a single-letter name such
as `A` therefore raises the name-invalid error even though `A` matches the
stated character grammar. -/
theorem short_identifier_rejected :
    (∀ (v : String) (strict : Bool), v.toList.length ≤ 1 → checkAscii v strict = false)
    ∧ parseLines ["A", "#abc", "0: -", "", ""] = .error "name value \"A\" is not valid" := by
  constructor
  · intro v strict h
    unfold checkAscii
    rw [if_pos h]
  · decide

/-- C10 witness: the one-character name `A` fails validation. -/
theorem short_identifier_rejected_witness :
    ("A" : String).toList.length ≤ 1 ∧ checkAscii "A" false = false :=
  ⟨by decide, short_identifier_rejected.1 "A" false (by decide)⟩

end RPSP
